import Mathlib

/-!
Verification development for the profile plugin's discovery/resolution core
(`profile_plugin.py`): the filename codec, the tool catalog, the host and tool
resolvers, the rate-limited breadth-first directory walk, and frontend run-name
resolution.

Modelling conventions:
* Python strings are Lean `String`s; character-level work happens on `.toList`.
* Python `set`s are modelled as duplicate-free `List String`s built with
  `setAdd` (insertion order is irrelevant to every property proved, which only
  concern membership and sorted projections of sets).
* Python exceptions are modelled with `Except PyExc`; an exception caught by
  the source is absorbed in the model exactly where the `except` clause sits.
* The filesystem is passed in explicitly: as `isDir`/`iterdir` functions for
  per-directory queries, and as a finite `FsEntry` tree for the recursive walk.
* The external conversion collaborator (`convert.xspace_to_tool_names`) is a
  function parameter `conv : List String → Except PyExc (List String)`.
-/

/-- Python exception kinds distinguished by the plugin's `try/except` clauses. -/
inductive PyExc where
  | keyError
  | attributeError
  | runtimeError (msg : String)
  | otherError
deriving DecidableEq, Repr

/-- `TOOLS` dict from the source: tool name to filename extension, in insertion
order (the order matters for the regex alternation built from `TOOLS.values()`). -/
def TOOLS : List (String × String) :=
  [("xplane", "xplane.pb"), ("hlo_proto", "hlo_proto.pb")]

/-- `ALL_HOSTS` sentinel. -/
def ALL_HOSTS : String := "ALL_HOSTS"

/-- `_EXTENSION_TO_TOOL`: the inverse mapping of `TOOLS`. -/
def _EXTENSION_TO_TOOL : List (String × String) :=
  TOOLS.map (fun p => (p.2, p.1))

/-- The extension alternation of `_FILENAME_RE`, i.e. `TOOLS.values()`. -/
def catalogExtensions : List String := TOOLS.map (fun p => p.2)

/-- `XPLANE_TOOLS`: ordered catalog of tools derivable from an xplane file. -/
def XPLANE_TOOLS : List String :=
  ["trace_viewer", "trace_viewer@", "overview_page", "input_pipeline_analyzer",
   "framework_op_stats", "kernel_stats", "memory_profile", "pod_viewer",
   "op_profile", "hlo_stats", "roofline_model", "inference_profile",
   "memory_viewer", "graph_viewer", "megascale_stats"]

/-- `XPLANE_TOOLS_ALL_HOSTS_SUPPORTED` (a frozenset; only membership is used). -/
def XPLANE_TOOLS_ALL_HOSTS_SUPPORTED : List String :=
  ["input_pipeline_analyzer", "framework_op_stats", "kernel_stats",
   "overview_page", "pod_viewer", "megascale_stats"]

/-- `XPLANE_TOOLS_ALL_HOSTS_ONLY` (a frozenset; only membership is used). -/
def XPLANE_TOOLS_ALL_HOSTS_ONLY : List String :=
  ["overview_page", "pod_viewer"]

/-- `HLO_TOOLS` (a frozenset; only membership is used). -/
def HLO_TOOLS : List String := ["graph_viewer", "memory_viewer"]

/-- `use_xplane(tool)`: membership in `XPLANE_TOOLS`. -/
def use_xplane (tool : String) : Bool := decide (tool ∈ XPLANE_TOOLS)

/-- `use_hlo(tool)`: membership in `HLO_TOOLS`. -/
def use_hlo (tool : String) : Bool := decide (tool ∈ HLO_TOOLS)

/-- Python `s[:-1]`: drop the last character. -/
def pyDropLast (s : String) : String := String.mk s.toList.dropLast

/-- Python set `add`, on the duplicate-free-list model of a set. -/
def setAdd (s : List String) (x : String) : List String :=
  if x ∈ s then s else s ++ [x]

/-- Python `set(l)`: deduplicate a list into the set model. -/
def pySet (l : List String) : List String := l.foldl setAdd []

/-- Ordinary lexicographic order on character lists, comparing code points:
the order Python uses to compare strings. -/
def lexLeb : List Char → List Char → Bool
  | [], _ => true
  | _ :: _, [] => false
  | a :: as, b :: bs => if a < b then true else if b < a then false else lexLeb as bs

/-- Ordinary string order (Python `<=` on `str`). -/
def strLeb (a b : String) : Bool := lexLeb a.toList b.toList

/-- Ordinary string order as a relation, for sortedness statements. -/
def strLe (a b : String) : Prop := strLeb a b = true

instance : DecidableRel strLe :=
  fun a b => inferInstanceAs (Decidable (strLeb a b = true))

/-- Python `sorted(...)` on strings: sort by ordinary string order. -/
def pySorted (l : List String) : List String :=
  List.insertionSort strLe l

/-! ### FilenameCodec: `_FILENAME_RE`, `_parse_filename`, `make_filename` -/

/-- All decompositions `cs = h ++ '.' :: r` of a character list, in order of
increasing position of the splitting dot. -/
def splits : List Char → List (List Char × List Char)
  | [] => []
  | c :: cs =>
      (if c = '.' then [(([] : List Char), cs)] else []) ++
        (splits cs).map (fun p => (c :: p.1, p.2))

/-- A host candidate for the regex group `(.*)`: `.` does not match a newline,
so the candidate must be newline-free. -/
def hostOk (h : List Char) : Bool := decide ('\n' ∉ h)

/-- The decompositions of a filename that the regex
`(?:(.*)\.)?(xplane\.pb|hlo_proto\.pb)` could match with the optional host
group present: a newline-free host, a dot, and a catalog extension. -/
def validSplits (cs : List Char) : List (List Char × List Char) :=
  (splits cs).filter (fun p => hostOk p.1 && decide (String.mk p.2 ∈ catalogExtensions))

/-- `_FILENAME_RE.fullmatch(filename)`: the greedy `(.*)` takes the longest
host candidate (the last valid split); if the optional host group cannot
match, the whole filename must be a catalog extension. Returns
`(group(1), group(2))` on success. -/
def reFullmatch (f : String) : Option (Option String × String) :=
  match (validSplits f.toList).getLast? with
  | some p => some (some (String.mk p.1), String.mk p.2)
  | none => if f ∈ catalogExtensions then some (none, f) else none

/-- `_parse_filename(filename)`: decode a run-directory filename into a
`(host, tool)` pair; a filename that does not match the regex decodes to the
whole name as host and no tool. -/
def _parse_filename (filename : String) : Option String × Option String :=
  match reFullmatch filename with
  | none => (some filename, none)
  | some (host, ext) => (host, _EXTENSION_TO_TOOL.lookup ext)

/-- `make_filename(host, tool)`: encode a host and tool as a filename.
Python raises `KeyError` when the (family-substituted) tool is not a `TOOLS`
key; that failure is the `none` case here. -/
def make_filename (host tool : String) : Option String :=
  let filename := if host ≠ "" then host ++ "." else ""
  let tool := if use_hlo tool then "hlo_proto"
              else if use_xplane tool then "xplane" else tool
  (TOOLS.lookup tool).map (fun ext => filename ++ ext)

/-! ### HostResolver: `_get_hosts`, `filenames_to_hosts` -/

/-- `_get_hosts(filenames)`: the set of (truthy) hosts decoded from filenames. -/
def _get_hosts (filenames : List String) : List String :=
  filenames.foldl
    (fun hosts name =>
      match (_parse_filename name).1 with
      | some host => if host ≠ "" then setAdd hosts host else hosts
      | none => hosts)
    []

/-- `filenames_to_hosts(filenames, tool)`: host list for a tool, applying the
all-hosts-only / all-hosts-supported policies when more than one distinct
host is present, and returning a sorted list. -/
def filenames_to_hosts (filenames : List String) (tool : String) : List String :=
  let hosts := _get_hosts filenames
  if 1 < hosts.length then
    if tool ∈ XPLANE_TOOLS_ALL_HOSTS_ONLY then pySorted [ALL_HOSTS]
    else if tool ∈ XPLANE_TOOLS_ALL_HOSTS_SUPPORTED then pySorted (setAdd hosts ALL_HOSTS)
    else pySorted hosts
  else pySorted hosts

/-! ### ToolResolver: `_get_tools`, `_get_active_tools` -/

/-- Path helper: Python startswith on strings. -/
def strStartsWith (s p : String) : Bool :=
  decide (s.toList.take p.toList.length = p.toList)

/-- Path helper: Python endswith on strings. -/
def strEndsWith (s p : String) : Bool :=
  decide (s.toList.drop (s.toList.length - p.toList.length) = p.toList ∧
          p.toList.length ≤ s.toList.length)

/-- `os.path.join(a, b)` for POSIX paths (two-argument form). -/
def osPathJoin (a b : String) : String :=
  if strStartsWith b "/" then b
  else if a = "" ∨ strEndsWith a "/" then a ++ b
  else a ++ "/" ++ b

/-- State of the filename loop in `_get_tools`: the `tools`, `found` sets and
the accumulated `xplane_filenames` list. -/
structure ToolScan where
  tools : List String
  found : List String
  xplane_filenames : List String
deriving DecidableEq, Repr

/-- One iteration of the filename loop in `_get_tools`. -/
def scanStep (profile_run_dir : String) (acc : ToolScan) (name : String) : ToolScan :=
  match (_parse_filename name).2 with
  | some tool =>
      if tool = "xplane" then
        { acc with xplane_filenames := acc.xplane_filenames ++ [osPathJoin profile_run_dir name] }
      else if tool = "hlo_proto" then acc
      else if tool ≠ "" then
        { acc with
          tools := setAdd acc.tools tool,
          found := if tool.toList.getLast? = some '@' then setAdd acc.found (pyDropLast tool)
                   else setAdd acc.found tool }
      else acc
  | none => acc

/-- The filename loop of `_get_tools`, folded over all filenames. -/
def toolScanOf (filenames : List String) (profile_run_dir : String) : ToolScan :=
  filenames.foldl (scanStep profile_run_dir) ⟨[], [], []⟩

/-- `_get_tools(filenames, profile_run_dir)`: the set of tools encoded in the
filenames. With no run directory, tools generatable from a present xplane file
are synthesized from the `XPLANE_TOOLS` catalog; with a run directory, the
conversion collaborator enumerates them, and only its `AttributeError` failure
is caught (falling back to the directly-found tools). -/
def _get_tools (conv : List String → Except PyExc (List String))
    (filenames : List String) (profile_run_dir : String) :
    Except PyExc (List String) :=
  let scan := toolScanOf filenames profile_run_dir
  if profile_run_dir = "" then
    if scan.xplane_filenames ≠ [] then
      Except.ok (XPLANE_TOOLS.foldl
        (fun ts item => if pyDropLast item ∉ scan.found then setAdd ts item else ts)
        scan.tools)
    else Except.ok scan.tools
  else
    if scan.xplane_filenames ≠ [] then
      match conv scan.xplane_filenames with
      | Except.ok names => Except.ok (pySet names)
      | Except.error PyExc.attributeError => Except.ok scan.tools
      | Except.error e => Except.error e
    else Except.ok scan.tools

/-- The `op` frozenset of `_get_active_tools`. -/
def opSet : List String := ["overview_page"]

/-- `ProfilePlugin._get_active_tools(filenames, profile_run_dir)`: resolve the
tool set and post-process it: streaming trace viewer overrides the normal one,
and the result is ordered with `overview_page` first and the rest sorted. -/
def _get_active_tools (conv : List String → Except PyExc (List String))
    (filenames : List String) (profile_run_dir : String) :
    Except PyExc (List String) :=
  match _get_tools conv filenames profile_run_dir with
  | Except.error e => Except.error e
  | Except.ok tools =>
      let tools := if "trace_viewer@" ∈ tools then tools.erase "trace_viewer" else tools
      Except.ok (tools.filter (fun t => decide (t ∈ opSet)) ++
        pySorted (tools.filter (fun t => decide (t ∉ opSet))))

/-! ### RunIndex helpers: `_tb_run_directory`, `_run_dir`,
`generate_tools_of_run` -/

/-- `PLUGIN_NAME` constant. -/
def PLUGIN_NAME : String := "profile"

/-- Python `run.rstrip(os.sep)`: strip trailing `/` characters. -/
def rstripSlash (s : String) : String :=
  String.mk (s.toList.reverse.dropWhile (fun c => c = '/')).reverse

/-- `os.path.split(p)` for POSIX paths: split at the final slash; the head
keeps its trailing slashes only when it consists solely of slashes. -/
def osPathSplit (p : String) : String × String :=
  let cs := p.toList
  let tail := (cs.reverse.takeWhile (fun c => c ≠ '/')).reverse
  let head := cs.take (cs.length - tail.length)
  let head := if head.all (fun c => c = '/') then head
              else (head.reverse.dropWhile (fun c => c = '/')).reverse
  (String.mk head, String.mk tail)

/-- `_tb_run_directory(logdir, run)`: the bare logdir for the root run `"."`,
otherwise the logdir joined with the run name. -/
def _tb_run_directory (logdir run : String) : String :=
  if run = "." then logdir else osPathJoin logdir run

/-- Modelled from the spec: `plugin_asset_util.PluginDirectory` is imported
from the tensorboard shim, whose code is not part of this repository's
sources; per the directory layout convention (spec §6,
`<container>/plugins/profile/<profile-run>`), the plugin directory of a
container directory is `<container>/plugins/<plugin_name>`. -/
def PluginDirectory (run_dir plugin_name : String) : String :=
  osPathJoin (osPathJoin run_dir "plugins") plugin_name

/-- The TensorBoard-run (container) directory that `_run_dir` checks, for a
given frontend run name. -/
def tbRunDirOf (logdir run : String) : String :=
  let run := rstripSlash run
  let tb_run_name := (osPathSplit run).1
  let tb_run_name := if tb_run_name = "" then "." else tb_run_name
  _tb_run_directory logdir tb_run_name

/-- `ProfilePlugin._run_dir(run)`: map a frontend run name to a profile run
directory; raises `RuntimeError` when the TensorBoard run directory is not a
directory. The backing filesystem is the `isDir` predicate. -/
def _run_dir (isDir : String → Bool) (logdir run : String) : Except PyExc String :=
  let run := rstripSlash run
  let profile_run_name := (osPathSplit run).2
  let tb_run_directory := tbRunDirOf logdir run
  if ¬ isDir tb_run_directory then
    Except.error (PyExc.runtimeError ("No matching run directory for run " ++ run))
  else
    Except.ok (osPathJoin (PluginDirectory tb_run_directory PLUGIN_NAME) profile_run_name)

/-- `ProfilePlugin.generate_tools_of_run(run)`: look the run up in the
run-directory cache (`self._run_to_profile_run_dir`, here the `cache`
function; a missing key is Python's `KeyError`), then list the run directory
(an `OSError` is caught and leaves the filename list empty and falsy) and
resolve the active tools. -/
def generate_tools_of_run (conv : List String → Except PyExc (List String))
    (cache : String → Option String) (isDir : String → Bool)
    (iterdir : String → Option (List String)) (run : String) :
    Except PyExc (List String) :=
  match cache run with
  | none => Except.error PyExc.keyError
  | some profile_run_dir =>
      if isDir profile_run_dir then
        match iterdir profile_run_dir with
        | none => Except.ok []
        | some filenames => _get_active_tools conv filenames profile_run_dir
      else Except.ok []

/-! ### HostResolver entry point: `ProfilePlugin._run_host_impl` -/

/-- The `HostMetadata` TypedDict. -/
structure HostMetadata where
  hostname : String
deriving DecidableEq, Repr

/-- `ProfilePlugin._run_host_impl(run, run_dir, tool)`: glob the run directory
with the hard-coded pattern `*.xplane.pb` (an `OSError` is caught, leaving no
filenames; `globListing` is the run directory's basenames, `none` when the
glob raises) and convert the matching filenames to host metadata. -/
def _run_host_impl (run run_dir : String) (globListing : Option (List String))
    (tool : String) : List HostMetadata :=
  if run_dir = "" then []
  else
    let filenames := match globListing with
      | none => []
      | some fs => fs.filter (fun f => strEndsWith f ".xplane.pb")
    (filenames_to_hosts filenames tool).map (fun host => ⟨host⟩)

/-! ### DirectoryWalker: `find_all_subdirectories` -/

/-- A finite filesystem subtree: a file, or a directory whose listing either
failed (`none`, the `IOError/OSError` case caught by `get_subdirectories`) or
returned a list of child entries. `name` stands for the full path. -/
inductive FsEntry where
  | file (name : String)
  | dir (name : String) (listing : Option (List FsEntry))

/-- The path of an entry. -/
def FsEntry.name : FsEntry → String
  | .file n => n
  | .dir n _ => n

/-- `is_dir()` of an entry. -/
def FsEntry.isDir : FsEntry → Bool
  | .file _ => false
  | .dir _ _ => true

/-- The child directories `get_subdirectories` appends to the visit queue:
none for a file or a failed listing (the exception is caught and logged), and
the directory children of a successful listing. -/
def FsEntry.dirChildren : FsEntry → List FsEntry
  | .file _ => []
  | .dir _ none => []
  | .dir _ (some listing) => listing.filter FsEntry.isDir

/-- The breadth-first loop of `find_all_subdirectories`: pop the front of
`dirs_to_visit`, yield it, and enqueue its child directories. -/
def bfsWalk : List FsEntry → List String
  | [] => []
  | e :: rest => e.name :: bfsWalk (rest ++ e.dirChildren)
termination_by q => sizeOf q
decreasing_by
  have happ : ∀ l₁ l₂ : List FsEntry, sizeOf (l₁ ++ l₂) + 1 = sizeOf l₁ + sizeOf l₂ := by
    intro l₁ l₂
    induction l₁ with
    | nil => simp; omega
    | cons a t ih => simp only [List.cons_append, List.cons.sizeOf_spec]; omega
  have hch : ∀ e : FsEntry, sizeOf e.dirChildren < 2 + sizeOf e := by
    have hfil : ∀ (p : FsEntry → Bool) (l : List FsEntry), sizeOf (l.filter p) ≤ sizeOf l := by
      intro p l
      induction l with
      | nil => simp
      | cons a t ih =>
        by_cases hpa : p a
        · rw [List.filter_cons_of_pos hpa]
          simp only [List.cons.sizeOf_spec]
          omega
        · rw [List.filter_cons_of_neg hpa]
          simp only [List.cons.sizeOf_spec]
          omega
    intro e
    cases e with
    | file n => simp [FsEntry.dirChildren]; omega
    | dir n o =>
      cases o with
      | none => simp [FsEntry.dirChildren]; omega
      | some listing =>
        have h1 := hfil FsEntry.isDir listing
        simp only [FsEntry.dirChildren, FsEntry.dir.sizeOf_spec, Option.some.sizeOf_spec]
        omega
  simp only [List.cons.sizeOf_spec]
  have h1 := happ rest e.dirChildren
  have h2 := hch e
  omega

/-- `find_all_subdirectories(top_path)`: empty when `top_path` is not a
directory, otherwise the breadth-first enumeration seeded with `top_path`. -/
def find_all_subdirectories (top : FsEntry) : List String :=
  if top.isDir then bfsWalk [top] else []

/-- Reachability through successful (and caught-failure) listings: the
reflexive-transitive closure of the enqueued-child relation. -/
inductive Reaches : FsEntry → FsEntry → Prop
  | refl (e : FsEntry) : Reaches e e
  | head {a b c : FsEntry} : b ∈ a.dirChildren → Reaches b c → Reaches a c

/-! ### Spec-side helper predicates and concrete witnesses -/

/-- Spec's matching rule for xplane-catalog synthesis: strip a trailing
streaming marker `@` if present. -/
def stripStreaming (t : String) : String :=
  if t.toList.getLast? = some '@' then pyDropLast t else t

/-- Spec-side notion of a directly-named tool: a key of `TOOLS` that belongs
to neither the xplane-derived nor the module-binary-derived family, so that
`make_filename` uses its literal extension. -/
def isDirectlyNamedTool (t : String) : Bool :=
  (TOOLS.lookup t).isSome && !use_hlo t && !use_xplane t

/-- Example subtree `x` (an empty directory) for walk witnesses. -/
def exX : FsEntry := FsEntry.dir "root/a/x" (some [])

/-- Example subtree `a` containing `x`. -/
def exA : FsEntry := FsEntry.dir "root/a" (some [exX])

/-- Example root directory containing directory `a` and file `b`. -/
def exRoot : FsEntry := FsEntry.dir "root" (some [exA, FsEntry.file "root/b"])

/-! ## Supporting lemmas -/

theorem lexLeb_total : ∀ as bs : List Char, lexLeb as bs = true ∨ lexLeb bs as = true := by
  intro as
  induction as with
  | nil => intro bs; left; rfl
  | cons a as ih =>
    intro bs
    cases bs with
    | nil => right; rfl
    | cons b bs =>
      by_cases hab : a < b
      · left; simp [lexLeb, if_pos hab]
      · by_cases hba : b < a
        · right; simp [lexLeb, if_pos hba]
        · rcases ih bs with h | h
          · left; simp [lexLeb, if_neg hab, if_neg hba, h]
          · right; simp [lexLeb, if_neg hab, if_neg hba, h]

theorem lexLeb_trans :
    ∀ as bs cs : List Char, lexLeb as bs = true → lexLeb bs cs = true →
      lexLeb as cs = true := by
  intro as
  induction as with
  | nil => intro bs cs _ _; rfl
  | cons a as ih =>
    intro bs cs h1 h2
    cases bs with
    | nil => simp [lexLeb] at h1
    | cons b bs =>
      cases cs with
      | nil => simp [lexLeb] at h2
      | cons c cs =>
        by_cases hab : a < b
        · by_cases hbc : b < c
          · simp [lexLeb, if_pos (lt_trans hab hbc)]
          · by_cases hcb : c < b
            · simp [lexLeb, if_pos hcb, if_neg hbc] at h2
            · have hbc' : b = c := le_antisymm (not_lt.mp hcb) (not_lt.mp hbc)
              subst hbc'
              simp [lexLeb, if_pos hab]
        · by_cases hba : b < a
          · simp [lexLeb, if_pos hba, if_neg hab] at h1
          · have hab' : a = b := le_antisymm (not_lt.mp hba) (not_lt.mp hab)
            subst hab'
            by_cases hac : a < c
            · simp [lexLeb, if_pos hac]
            · by_cases hca : c < a
              · simp [lexLeb, if_pos hca, if_neg hac] at h2
              · simp only [lexLeb, if_neg hab, if_neg hba] at h1
                simp only [lexLeb, if_neg hac, if_neg hca] at h2 ⊢
                exact ih bs cs h1 h2

theorem strLe_total (a b : String) : strLe a b ∨ strLe b a :=
  lexLeb_total a.toList b.toList

theorem strLe_trans {a b c : String} (h1 : strLe a b) (h2 : strLe b c) : strLe a c :=
  lexLeb_trans a.toList b.toList c.toList h1 h2

theorem pySorted_sorted (l : List String) : List.Sorted strLe (pySorted l) := by
  haveI : IsTotal String strLe := ⟨strLe_total⟩
  haveI : IsTrans String strLe := ⟨fun _ _ _ => strLe_trans⟩
  exact List.sorted_insertionSort strLe l

theorem mem_pySorted {l : List String} {x : String} : x ∈ pySorted l ↔ x ∈ l :=
  List.mem_insertionSort strLe

theorem mem_setAdd {s : List String} {x y : String} :
    y ∈ setAdd s x ↔ y ∈ s ∨ y = x := by
  unfold setAdd
  by_cases h : x ∈ s
  · rw [if_pos h]
    constructor
    · intro h'; exact Or.inl h'
    · rintro (h' | rfl)
      · exact h'
      · exact h
  · rw [if_neg h]
    simp

theorem setAdd_nodup {s : List String} {x : String} (h : s.Nodup) :
    (setAdd s x).Nodup := by
  unfold setAdd
  by_cases hx : x ∈ s
  · rw [if_pos hx]; exact h
  · rw [if_neg hx]
    simp [List.nodup_append, h, hx]

theorem mem_foldl_setAdd (l : List String) :
    ∀ (acc : List String) (y : String), y ∈ l.foldl setAdd acc ↔ y ∈ acc ∨ y ∈ l := by
  induction l with
  | nil => intro acc y; simp
  | cons a t ih =>
    intro acc y
    rw [List.foldl_cons, ih, mem_setAdd]
    simp [or_assoc]

theorem nodup_foldl_setAdd (l : List String) :
    ∀ acc : List String, acc.Nodup → (l.foldl setAdd acc).Nodup := by
  induction l with
  | nil => intro acc h; exact h
  | cons a t ih => intro acc h; exact ih _ (setAdd_nodup h)

theorem mem_pySet {l : List String} {y : String} : y ∈ pySet l ↔ y ∈ l := by
  unfold pySet
  rw [mem_foldl_setAdd]
  simp

theorem pySet_nodup (l : List String) : (pySet l).Nodup :=
  nodup_foldl_setAdd l [] List.nodup_nil

theorem mem_splits : ∀ (cs h r : List Char), (h, r) ∈ splits cs ↔ cs = h ++ '.' :: r := by
  intro cs
  induction cs with
  | nil =>
    intro h r
    simp only [splits, List.not_mem_nil, false_iff]
    intro heq
    cases h <;> simp_all
  | cons c cs ih =>
    intro h r
    constructor
    · intro hm
      rcases List.mem_append.mp hm with hm1 | hm2
      · by_cases hc : c = '.'
        · rw [if_pos hc] at hm1
          have heq := List.mem_singleton.mp hm1
          cases heq
          simp [hc]
        · rw [if_neg hc] at hm1
          cases hm1
      · rcases List.mem_map.mp hm2 with ⟨p, hp, heq⟩
        cases heq
        have := (ih p.1 p.2).mp (by exact hp)
        simp [this]
    · intro heq
      cases h with
      | nil =>
        simp only [List.nil_append, List.cons.injEq] at heq
        obtain ⟨hc, hcs⟩ := heq
        apply List.mem_append.mpr
        left
        rw [if_pos hc]
        subst hcs
        exact List.mem_singleton_self _
      | cons x h' =>
        simp only [List.cons_append, List.cons.injEq] at heq
        obtain ⟨hx, hcs⟩ := heq
        subst hx
        apply List.mem_append.mpr
        right
        exact List.mem_map.mpr ⟨(h', r), (ih h' r).mpr hcs, rfl⟩

theorem getLast?_eq_of_mem_of_all_eq {α : Type} (l : List α) (a : α)
    (hmem : a ∈ l) (hall : ∀ x ∈ l, x = a) : l.getLast? = some a := by
  induction l with
  | nil => cases hmem
  | cons y ys ih =>
    cases ys with
    | nil =>
      have hy : y = a := hall y (List.mem_cons_self y [])
      simp [hy]
    | cons z zs =>
      rw [List.getLast?_cons_cons]
      have hz : z = a := hall z (by simp)
      have hmem' : a ∈ z :: zs := by rw [hz]; exact List.mem_cons_self a zs
      exact ih hmem' (fun x hx => hall x (List.mem_cons_of_mem _ hx))

theorem valid_split_unique (hs : List Char) (ext : String) (h r : List Char)
    (hext : ext ∈ catalogExtensions)
    (heq : hs ++ '.' :: ext.toList = h ++ '.' :: r)
    (hv : String.mk r ∈ catalogExtensions) :
    h = hs ∧ r = ext.toList := by
  have hcat : catalogExtensions = ["xplane.pb", "hlo_proto.pb"] := rfl
  rw [hcat] at hext hv
  have hr : r = "xplane.pb".toList ∨ r = "hlo_proto.pb".toList := by
    rcases List.mem_cons.mp hv with h1 | h1
    · exact Or.inl (congrArg String.data h1)
    · rcases List.mem_cons.mp h1 with h2 | h2
      · exact Or.inr (congrArg String.data h2)
      · cases h2
  have he : ext = "xplane.pb" ∨ ext = "hlo_proto.pb" := by
    rcases List.mem_cons.mp hext with h1 | h1
    · exact Or.inl h1
    · rcases List.mem_cons.mp h1 with h2 | h2
      · exact Or.inr h2
      · cases h2
  have sfx1 : ('.' :: ext.toList) <:+ (h ++ '.' :: r) := ⟨hs, heq⟩
  have sfx2 : ('.' :: r) <:+ (h ++ '.' :: r) := ⟨h, rfl⟩
  have hor := List.suffix_or_suffix_of_suffix sfx1 sfx2
  rcases he with he1 | he1 <;> rcases hr with hr1 | hr1 <;> subst he1 <;> subst hr1
  · have := List.append_inj' heq rfl
    exact ⟨this.1.symm, by simp⟩
  · exact absurd hor (by decide)
  · exact absurd hor (by decide)
  · have := List.append_inj' heq rfl
    exact ⟨this.1.symm, by simp⟩

theorem reFullmatch_make (hs : List Char) (ext : String)
    (hnl : '\n' ∉ hs) (hext : ext ∈ catalogExtensions) :
    reFullmatch (String.mk (hs ++ '.' :: ext.toList)) =
      some (some (String.mk hs), ext) := by
  have hmem : (hs, ext.toList) ∈ validSplits (hs ++ '.' :: ext.toList) := by
    unfold validSplits
    apply List.mem_filter.mpr
    refine ⟨(mem_splits _ hs ext.toList).mpr rfl, ?_⟩
    rw [Bool.and_eq_true]
    exact ⟨decide_eq_true hnl, decide_eq_true hext⟩
  have hall : ∀ p ∈ validSplits (hs ++ '.' :: ext.toList), p = (hs, ext.toList) := by
    rintro ⟨ph, pr⟩ hp
    rcases List.mem_filter.mp hp with ⟨hsp, hpred⟩
    rw [Bool.and_eq_true] at hpred
    have heq : hs ++ '.' :: ext.toList = ph ++ '.' :: pr := (mem_splits _ ph pr).mp hsp
    have hv : String.mk pr ∈ catalogExtensions := of_decide_eq_true hpred.2
    have := valid_split_unique hs ext ph pr hext heq hv
    simp [this.1, this.2]
  have hlast : (validSplits (hs ++ '.' :: ext.toList)).getLast? = some (hs, ext.toList) :=
    getLast?_eq_of_mem_of_all_eq _ _ hmem hall
  show (match (validSplits (hs ++ '.' :: ext.toList)).getLast? with
        | some p => some (some (String.mk p.1), String.mk p.2)
        | none =>
            if String.mk (hs ++ '.' :: ext.toList) ∈ catalogExtensions then
              some (none, String.mk (hs ++ '.' :: ext.toList))
            else none) = some (some (String.mk hs), ext)
  rw [hlast]
  rfl

theorem reFullmatch_ext_mem (f : String) (ho : Option String) (ext : String)
    (h : reFullmatch f = some (ho, ext)) : ext ∈ catalogExtensions := by
  unfold reFullmatch at h
  cases hlast : (validSplits f.toList).getLast? with
  | some p =>
    rw [hlast] at h
    simp only [Option.some.injEq, Prod.mk.injEq] at h
    have hp : p ∈ validSplits f.toList := List.mem_of_getLast?_eq_some hlast
    have hpred := List.of_mem_filter hp
    rw [Bool.and_eq_true] at hpred
    have hv : String.mk p.2 ∈ catalogExtensions := of_decide_eq_true hpred.2
    rw [← h.2]
    exact hv
  | none =>
    rw [hlast] at h
    by_cases hf : f ∈ catalogExtensions
    · rw [if_pos hf] at h
      simp only [Option.some.injEq, Prod.mk.injEq] at h
      rw [← h.2]
      exact hf
    · rw [if_neg hf] at h
      cases h

theorem parse_tool_cases (f t : String) (h : (_parse_filename f).2 = some t) :
    t = "xplane" ∨ t = "hlo_proto" := by
  unfold _parse_filename at h
  cases hre : reFullmatch f with
  | none => rw [hre] at h; cases h
  | some p =>
    obtain ⟨ho, ext⟩ := p
    rw [hre] at h
    simp only at h
    have hext := reFullmatch_ext_mem f ho ext hre
    have hcat : catalogExtensions = ["xplane.pb", "hlo_proto.pb"] := rfl
    rw [hcat] at hext
    rcases List.mem_cons.mp hext with h1 | h1
    · subst h1
      injection h with h3
      exact Or.inl h3.symm
    · rcases List.mem_cons.mp h1 with h2 | h2
      · subst h2
        injection h with h3
        exact Or.inr h3.symm
      · cases h2

theorem scanStep_preserves (dir : String) (acc : ToolScan) (name : String) :
    (scanStep dir acc name).tools = acc.tools ∧ (scanStep dir acc name).found = acc.found := by
  unfold scanStep
  cases hp : (_parse_filename name).2 with
  | none => exact ⟨rfl, rfl⟩
  | some tool =>
    rcases parse_tool_cases name tool hp with h1 | h1 <;> subst h1
    · exact ⟨rfl, rfl⟩
    · exact ⟨rfl, rfl⟩

theorem toolScan_tools_found (filenames : List String) (dir : String) :
    (toolScanOf filenames dir).tools = [] ∧ (toolScanOf filenames dir).found = [] := by
  suffices h : ∀ (l : List String) (acc : ToolScan),
      (l.foldl (scanStep dir) acc).tools = acc.tools ∧
        (l.foldl (scanStep dir) acc).found = acc.found by
    exact h filenames ⟨[], [], []⟩
  intro l
  induction l with
  | nil => intro acc; exact ⟨rfl, rfl⟩
  | cons a t ih =>
    intro acc
    rw [List.foldl_cons]
    have h1 := scanStep_preserves dir acc a
    have h2 := ih (scanStep dir acc a)
    exact ⟨h2.1.trans h1.1, h2.2.trans h1.2⟩

theorem nodup_foldl_setAddIte (p : String → Prop) [DecidablePred p] (l : List String) :
    ∀ acc : List String, acc.Nodup →
      (l.foldl (fun ts item => if p item then setAdd ts item else ts) acc).Nodup := by
  induction l with
  | nil => intro acc h; exact h
  | cons a t ih =>
    intro acc h
    rw [List.foldl_cons]
    by_cases hp : p a
    · rw [if_pos hp]
      exact ih _ (setAdd_nodup h)
    · rw [if_neg hp]
      exact ih _ h

theorem mem_foldl_setAddIte_of_mem (p : String → Prop) [DecidablePred p] (l : List String) :
    ∀ (acc : List String) (x : String), x ∈ acc →
      x ∈ l.foldl (fun ts item => if p item then setAdd ts item else ts) acc := by
  induction l with
  | nil => intro acc x hx; exact hx
  | cons a t ih =>
    intro acc x hx
    rw [List.foldl_cons]
    by_cases hp : p a
    · rw [if_pos hp]
      exact ih _ _ (mem_setAdd.mpr (Or.inl hx))
    · rw [if_neg hp]
      exact ih _ _ hx

theorem mem_foldl_setAddIte (p : String → Prop) [DecidablePred p] (l : List String) :
    ∀ (acc : List String) (x : String), x ∈ l → p x →
      x ∈ l.foldl (fun ts item => if p item then setAdd ts item else ts) acc := by
  induction l with
  | nil => intro acc x hx; cases hx
  | cons a t ih =>
    intro acc x hx hpx
    rw [List.foldl_cons]
    rcases List.mem_cons.mp hx with rfl | hx'
    · rw [if_pos hpx]
      exact mem_foldl_setAddIte_of_mem p t _ x (mem_setAdd.mpr (Or.inr rfl))
    · by_cases hp : p a
      · rw [if_pos hp]
        exact ih _ _ hx' hpx
      · rw [if_neg hp]
        exact ih _ _ hx' hpx

theorem get_tools_ok_nodup (conv : List String → Except PyExc (List String))
    (filenames : List String) (dir : String) (ts : List String)
    (h : _get_tools conv filenames dir = Except.ok ts) : ts.Nodup := by
  have hempty := (toolScan_tools_found filenames dir).1
  simp only [_get_tools] at h
  split at h
  · split at h
    · injection h with h'
      subst h'
      apply nodup_foldl_setAddIte
      rw [hempty]
      exact List.nodup_nil
    · injection h with h'
      subst h'
      rw [hempty]
      exact List.nodup_nil
  · split at h
    · split at h
      · injection h with h'
        subst h'
        exact pySet_nodup _
      · injection h with h'
        subst h'
        rw [hempty]
        exact List.nodup_nil
      · exact Except.noConfusion h
    · injection h with h'
      subst h'
      rw [hempty]
      exact List.nodup_nil

theorem bfsWalk_nil : bfsWalk [] = [] := by
  rw [bfsWalk]

theorem bfsWalk_cons (e : FsEntry) (rest : List FsEntry) :
    bfsWalk (e :: rest) = e.name :: bfsWalk (rest ++ e.dirChildren) := by
  rw [bfsWalk]

theorem sizeOf_list_append (l₁ l₂ : List FsEntry) :
    sizeOf (l₁ ++ l₂) + 1 = sizeOf l₁ + sizeOf l₂ := by
  induction l₁ with
  | nil => simp; omega
  | cons a t ih => simp only [List.cons_append, List.cons.sizeOf_spec]; omega

theorem sizeOf_dirChildren_lt (e : FsEntry) : sizeOf e.dirChildren < 2 + sizeOf e := by
  have hfil : ∀ (p : FsEntry → Bool) (l : List FsEntry), sizeOf (l.filter p) ≤ sizeOf l := by
    intro p l
    induction l with
    | nil => simp
    | cons a t ih =>
      by_cases hpa : p a
      · rw [List.filter_cons_of_pos hpa]
        simp only [List.cons.sizeOf_spec]
        omega
      · rw [List.filter_cons_of_neg hpa]
        simp only [List.cons.sizeOf_spec]
        omega
  cases e with
  | file n => simp [FsEntry.dirChildren]; omega
  | dir n o =>
    cases o with
    | none => simp [FsEntry.dirChildren]; omega
    | some listing =>
      have h1 := hfil FsEntry.isDir listing
      simp only [FsEntry.dirChildren, FsEntry.dir.sizeOf_spec, Option.some.sizeOf_spec]
      omega

theorem queue_size_lt (e : FsEntry) (rest : List FsEntry) :
    sizeOf (rest ++ e.dirChildren) < sizeOf (e :: rest) := by
  have h1 := sizeOf_list_append rest e.dirChildren
  have h2 := sizeOf_dirChildren_lt e
  simp only [List.cons.sizeOf_spec]
  omega

theorem bfsWalk_complete :
    ∀ (q : List FsEntry) (e c : FsEntry), e ∈ q → Reaches e c → c.name ∈ bfsWalk q
  | [], e, _, he, _ => absurd he (List.not_mem_nil e)
  | a :: rest, e, c, he, hr => by
      rw [bfsWalk_cons]
      rcases List.mem_cons.mp he with heq | he'
      · cases hr with
        | refl =>
          rw [heq]
          exact List.mem_cons_self _ _
        | head hb hr' =>
          rw [heq] at hb
          exact List.mem_cons_of_mem _
            (bfsWalk_complete (rest ++ a.dirChildren) _ c (List.mem_append_right rest hb) hr')
      · exact List.mem_cons_of_mem _
          (bfsWalk_complete (rest ++ a.dirChildren) e c (List.mem_append_left _ he') hr)
termination_by q => sizeOf q
decreasing_by
  · exact queue_size_lt a rest
  · exact queue_size_lt a rest

theorem filter_opSet_eq (l : List String) (hnd : l.Nodup) :
    l.filter (fun t => decide (t ∈ opSet)) =
      if "overview_page" ∈ l then ["overview_page"] else [] := by
  have hcongr : l.filter (fun t => decide (t ∈ opSet)) =
      l.filter (fun t => decide (t = "overview_page")) := by
    apply List.filter_congr
    intro a _
    simp [opSet]
  rw [hcongr, List.filter_eq, List.count_eq_of_nodup hnd]
  by_cases hov : "overview_page" ∈ l
  · rw [if_pos hov, if_pos hov]
    rfl
  · rw [if_neg hov, if_neg hov]
    rfl

/-! ## Claim theorems -/

/-- C3: on more than one distinct decoded host, `filenames_to_hosts` is
exactly the single `ALL_HOSTS` sentinel for an all-hosts-only tool, the
individual hosts plus the sentinel for an (other) all-hosts-supported tool,
and just the individual hosts otherwise; with at most one distinct host the
sentinel is never added for any tool; and the result is always sorted by
ordinary string order (the sentinel is not pinned first or last). -/
theorem C3_filenames_to_hosts (filenames : List String) (tool : String) :
    (1 < (_get_hosts filenames).length →
      (tool ∈ XPLANE_TOOLS_ALL_HOSTS_ONLY →
        filenames_to_hosts filenames tool = [ALL_HOSTS]) ∧
      (tool ∉ XPLANE_TOOLS_ALL_HOSTS_ONLY → tool ∈ XPLANE_TOOLS_ALL_HOSTS_SUPPORTED →
        filenames_to_hosts filenames tool =
          pySorted (setAdd (_get_hosts filenames) ALL_HOSTS)) ∧
      (tool ∉ XPLANE_TOOLS_ALL_HOSTS_ONLY → tool ∉ XPLANE_TOOLS_ALL_HOSTS_SUPPORTED →
        filenames_to_hosts filenames tool = pySorted (_get_hosts filenames))) ∧
    ((_get_hosts filenames).length ≤ 1 →
      filenames_to_hosts filenames tool = pySorted (_get_hosts filenames)) ∧
    List.Sorted strLe (filenames_to_hosts filenames tool) := by
  refine ⟨?_, ?_, ?_⟩
  · intro hcard
    refine ⟨?_, ?_, ?_⟩
    · intro honly
      simp only [filenames_to_hosts]
      rw [if_pos hcard, if_pos honly]
      rfl
    · intro hno hsup
      simp only [filenames_to_hosts]
      rw [if_pos hcard, if_neg hno, if_pos hsup]
    · intro hno hnsup
      simp only [filenames_to_hosts]
      rw [if_pos hcard, if_neg hno, if_neg hnsup]
  · intro hle
    simp only [filenames_to_hosts]
    rw [if_neg (by omega)]
  · simp only [filenames_to_hosts]
    by_cases h1 : 1 < (_get_hosts filenames).length
    · rw [if_pos h1]
      by_cases h2 : tool ∈ XPLANE_TOOLS_ALL_HOSTS_ONLY
      · rw [if_pos h2]
        exact pySorted_sorted _
      · rw [if_neg h2]
        by_cases h3 : tool ∈ XPLANE_TOOLS_ALL_HOSTS_SUPPORTED
        · rw [if_pos h3]
          exact pySorted_sorted _
        · rw [if_neg h3]
          exact pySorted_sorted _
    · rw [if_neg h1]
      exact pySorted_sorted _

/-- C3 witness: two xplane files give two hosts; an all-hosts-only tool
collapses to the sentinel, an all-hosts-supported tool adds it. -/
theorem C3_witness :
    1 < (_get_hosts ["a.xplane.pb", "b.xplane.pb"]).length ∧
    filenames_to_hosts ["a.xplane.pb", "b.xplane.pb"] "overview_page" = [ALL_HOSTS] ∧
    filenames_to_hosts ["a.xplane.pb", "b.xplane.pb"] "kernel_stats" =
      pySorted (setAdd (_get_hosts ["a.xplane.pb", "b.xplane.pb"]) ALL_HOSTS) :=
  ⟨by decide,
   ((C3_filenames_to_hosts ["a.xplane.pb", "b.xplane.pb"] "overview_page").1
     (by decide)).1 (by decide),
   ((C3_filenames_to_hosts ["a.xplane.pb", "b.xplane.pb"] "kernel_stats").1
     (by decide)).2.1 (by decide) (by decide)⟩

/-- C9: decoding a filename that is not itself a catalog extension and has no
catalog extension after a dot as a suffix returns the whole filename as the
host and no tool; `_parse_filename` is a total function, so unrecognized
files cannot raise. -/
theorem C9_parse_unrecognized (f : String)
    (h1 : f ∉ catalogExtensions)
    (h2 : ∀ ext ∈ catalogExtensions, ¬ ("." ++ ext).toList <:+ f.toList) :
    _parse_filename f = (some f, none) := by
  have hempty : validSplits f.toList = [] := by
    rw [validSplits, List.filter_eq_nil_iff]
    rintro ⟨ph, pr⟩ hp hpred
    rw [Bool.and_eq_true] at hpred
    have hv : String.mk pr ∈ catalogExtensions := of_decide_eq_true hpred.2
    have heq : f.toList = ph ++ '.' :: pr := (mem_splits _ ph pr).mp hp
    apply h2 (String.mk pr) hv
    rw [heq]
    exact ⟨ph, rfl⟩
  have hre : reFullmatch f = none := by
    unfold reFullmatch
    rw [hempty]
    show (if f ∈ catalogExtensions then some (none, f) else none) = none
    rw [if_neg h1]
  unfold _parse_filename
  rw [hre]

/-- C9 witness: a stray text file decodes to itself as host, with no tool. -/
theorem C9_witness : _parse_filename "host.trace" = (some "host.trace", none) :=
  C9_parse_unrecognized "host.trace" (by decide) (by decide)

/-- C10: a run name that was never placed in the run-directory cache makes
`generate_tools_of_run` fail with `KeyError` at the cache access — not with
an empty tool list and not with the `RuntimeError` resolution failure. -/
theorem C10_generate_tools_keyerror (conv : List String → Except PyExc (List String))
    (cache : String → Option String) (isDir : String → Bool)
    (iterdir : String → Option (List String)) (run : String)
    (h : cache run = none) :
    generate_tools_of_run conv cache isDir iterdir run = Except.error PyExc.keyError ∧
    (∀ ts, generate_tools_of_run conv cache isDir iterdir run ≠ Except.ok ts) ∧
    (∀ msg, generate_tools_of_run conv cache isDir iterdir run ≠
      Except.error (PyExc.runtimeError msg)) := by
  have heq : generate_tools_of_run conv cache isDir iterdir run =
      Except.error PyExc.keyError := by
    unfold generate_tools_of_run
    rw [h]
  refine ⟨heq, ?_, ?_⟩
  · intro ts hcon
    rw [heq] at hcon
    exact Except.noConfusion hcon
  · intro msg hcon
    rw [heq] at hcon
    injection hcon with h2
    exact PyExc.noConfusion h2

/-- C10 witness: an empty cache and an arbitrary filesystem. -/
theorem C10_witness :
    generate_tools_of_run (fun _ => Except.ok []) (fun _ => none) (fun _ => true)
      (fun _ => some []) "run1" = Except.error PyExc.keyError :=
  (C10_generate_tools_keyerror (fun _ => Except.ok []) (fun _ => none) (fun _ => true)
    (fun _ => some []) "run1" rfl).1

/-- C1 counterexample: with a filesystem in which the container directory
`/logdir/train` exists but the backing profile run directory
`/logdir/train/plugins/profile/run1` does not, `_run_dir` resolves the
frontend run name `train/run1` successfully to that nonexistent path instead
of failing with the "no matching run directory" error. -/
theorem C1_counterexample :
    _run_dir (fun s => s = "/logdir" || s = "/logdir/train") "/logdir" "train/run1"
      = Except.ok "/logdir/train/plugins/profile/run1" ∧
    (fun s : String => s = "/logdir" || s = "/logdir/train")
      "/logdir/train/plugins/profile/run1" = false := by
  exact ⟨rfl, by decide⟩

/-- C1 (amended): `_run_dir` fails with the distinct "no matching run
directory" `RuntimeError` exactly when the TensorBoard-run (container)
directory derived from the frontend run name is not a directory; when the
container is a directory, the profile run path is returned without checking
that it itself exists. -/
theorem C1_run_dir_amended (isDir : String → Bool) (logdir run : String) :
    (isDir (tbRunDirOf logdir (rstripSlash run)) = false →
      _run_dir isDir logdir run =
        Except.error (PyExc.runtimeError
          ("No matching run directory for run " ++ rstripSlash run))) ∧
    (isDir (tbRunDirOf logdir (rstripSlash run)) = true →
      _run_dir isDir logdir run =
        Except.ok (osPathJoin
          (PluginDirectory (tbRunDirOf logdir (rstripSlash run)) PLUGIN_NAME)
          (osPathSplit (rstripSlash run)).2)) := by
  constructor
  · intro h
    simp only [_run_dir]
    rw [if_pos (by simp [h])]
  · intro h
    simp only [_run_dir]
    rw [if_neg (by simp [h])]

/-- C1 witness: resolving a run whose container is missing raises the
distinct error; resolving one whose container exists returns the path. -/
theorem C1_witness :
    _run_dir (fun s => s = "/logdir") "/logdir" "train/run1" =
      Except.error (PyExc.runtimeError
        ("No matching run directory for run " ++ rstripSlash "train/run1")) ∧
    _run_dir (fun s => s = "/logdir") "/logdir" "run1" =
      Except.ok (osPathJoin
        (PluginDirectory (tbRunDirOf "/logdir" (rstripSlash "run1")) PLUGIN_NAME)
        (osPathSplit (rstripSlash "run1")).2) :=
  ⟨(C1_run_dir_amended (fun s => s = "/logdir") "/logdir" "train/run1").1 (by decide),
   (C1_run_dir_amended (fun s => s = "/logdir") "/logdir" "run1").2 (by decide)⟩

/-- C5: with at least one xplane file and no run directory, `_get_tools`
succeeds and contains every `XPLANE_TOOLS` catalog tool whose name — after
stripping a streaming suffix marker — was not found as a directly-named tool
file, and no catalog tool whose stripped base name was so found. -/
theorem C5_get_tools_synthesis (conv : List String → Except PyExc (List String))
    (filenames : List String)
    (hx : (toolScanOf filenames "").xplane_filenames ≠ [])
    (item : String) (hi : item ∈ XPLANE_TOOLS) :
    ∃ ts, _get_tools conv filenames "" = Except.ok ts ∧
      (stripStreaming item ∉ (toolScanOf filenames "").found → item ∈ ts) ∧
      (stripStreaming item ∈ (toolScanOf filenames "").found → item ∉ ts) := by
  have hempty := toolScan_tools_found filenames ""
  refine ⟨XPLANE_TOOLS.foldl
      (fun ts item => if pyDropLast item ∉ (toolScanOf filenames "").found
        then setAdd ts item else ts)
      (toolScanOf filenames "").tools, ?_, ?_, ?_⟩
  · simp only [_get_tools]
    rw [if_pos trivial, if_pos hx]
  · intro _
    have hp : pyDropLast item ∉ (toolScanOf filenames "").found := by
      rw [hempty.2]
      exact List.not_mem_nil _
    exact mem_foldl_setAddIte
      (fun it => pyDropLast it ∉ (toolScanOf filenames "").found)
      XPLANE_TOOLS _ item hi hp
  · intro hmem
    rw [hempty.2] at hmem
    exact absurd hmem (List.not_mem_nil _)

/-- C5 witness: a single consolidated-binary file with no run directory; the
failing collaborator is irrelevant because it is never consulted. -/
theorem C5_witness :
    ∃ ts, _get_tools (fun _ => Except.error PyExc.otherError) ["x.xplane.pb"] ""
        = Except.ok ts ∧
      (stripStreaming "overview_page" ∉ (toolScanOf ["x.xplane.pb"] "").found →
        "overview_page" ∈ ts) ∧
      (stripStreaming "overview_page" ∈ (toolScanOf ["x.xplane.pb"] "").found →
        "overview_page" ∉ ts) :=
  C5_get_tools_synthesis (fun _ => Except.error PyExc.otherError) ["x.xplane.pb"]
    (by decide) "overview_page" (by decide)

/-- C6 counterexample: a conversion-collaborator failure that is not the
missing-converter `AttributeError` (here a generic exception) propagates out
of `_get_tools` instead of being caught and turned into the directly-named
fallback result. -/
theorem C6_counterexample :
    _get_tools (fun _ => Except.error PyExc.otherError) ["x.xplane.pb"] "/d"
      = Except.error PyExc.otherError ∧
    ∀ ts, _get_tools (fun _ => Except.error PyExc.otherError) ["x.xplane.pb"] "/d"
      ≠ Except.ok ts := by
  have heq : _get_tools (fun _ => Except.error PyExc.otherError) ["x.xplane.pb"] "/d"
      = Except.error PyExc.otherError := rfl
  exact ⟨heq, fun ts h => Except.noConfusion (heq.symm.trans h)⟩

/-- C6 (amended): with xplane files and a concrete run directory,
`_get_tools` delegates entirely to the conversion collaborator; an
`AttributeError` failure of the collaborator (the only caught kind) falls
back to exactly the directly-named tools, while any other collaborator
failure propagates to the caller. -/
theorem C6_get_tools_amended (conv : List String → Except PyExc (List String))
    (filenames : List String) (dir : String) (hd : dir ≠ "")
    (hx : (toolScanOf filenames dir).xplane_filenames ≠ []) :
    (∀ names, conv (toolScanOf filenames dir).xplane_filenames = Except.ok names →
      _get_tools conv filenames dir = Except.ok (pySet names)) ∧
    (conv (toolScanOf filenames dir).xplane_filenames = Except.error PyExc.attributeError →
      _get_tools conv filenames dir = Except.ok (toolScanOf filenames dir).tools) ∧
    (∀ e, e ≠ PyExc.attributeError →
      conv (toolScanOf filenames dir).xplane_filenames = Except.error e →
      _get_tools conv filenames dir = Except.error e) := by
  refine ⟨?_, ?_, ?_⟩
  · intro names hc
    simp only [_get_tools]
    rw [if_neg hd, if_pos hx, hc]
  · intro hc
    simp only [_get_tools]
    rw [if_neg hd, if_pos hx, hc]
  · intro e he hc
    simp only [_get_tools]
    rw [if_neg hd, if_pos hx, hc]
    cases e with
    | keyError => rfl
    | attributeError => exact absurd rfl he
    | runtimeError msg => rfl
    | otherError => rfl

/-- C6 witness: a successful collaborator result is returned as the tool set
verbatim. -/
theorem C6_witness :
    _get_tools (fun _ => Except.ok ["foo"]) ["x.xplane.pb"] "/d"
      = Except.ok (pySet ["foo"]) :=
  (C6_get_tools_amended (fun _ => Except.ok ["foo"]) ["x.xplane.pb"] "/d"
    (by decide) (by decide)).1 ["foo"] rfl

/-- C7: the code contradicts its own `host_impl` documentation. For the
module-binary-derived tool `memory_viewer`, `_run_host_impl` globs the
hard-coded `*.xplane.pb` pattern instead of filtering to the module-binary
(`hlo_proto`) extension, so it returns the xplane hosts (`host1`) instead of
the module names (`module1`) that the docstring promises. -/
theorem C7_code_behavior :
    _run_host_impl "run1" "/logdir/train/plugins/profile/run1"
        (some ["host1.xplane.pb", "module1.hlo_proto.pb"]) "memory_viewer"
      = [{ hostname := "host1" }] ∧
    _run_host_impl "run1" "/logdir/train/plugins/profile/run1"
        (some ["host1.xplane.pb", "module1.hlo_proto.pb"]) "memory_viewer"
      ≠ [{ hostname := "module1" }] := by
  exact ⟨by decide, by decide⟩

/-- C8 counterexample: for the non-empty host `"a\nb"` (which contains a
newline, unmatchable by the regex `.`), encoding then decoding does not give
back the pair: the whole filename is returned as host with no tool. -/
theorem C8_counterexample :
    make_filename "a\nb" "xplane" = some "a\nb.xplane.pb" ∧
    _parse_filename "a\nb.xplane.pb" = (some "a\nb.xplane.pb", none) ∧
    _parse_filename "a\nb.xplane.pb" ≠ (some "a\nb", some "xplane") :=
  ⟨rfl, by decide, by decide⟩

/-- C8 (amended): for every non-empty host containing no newline character
and every directly-named catalog tool, decoding the encoded filename yields
back exactly the (host, tool) pair. -/
theorem C8_roundtrip_amended (host tool : String) (h1 : host ≠ "")
    (h2 : '\n' ∉ host.toList) (h3 : isDirectlyNamedTool tool = true) :
    ∃ f, make_filename host tool = some f ∧
      _parse_filename f = (some host, some tool) := by
  have htool : tool = "xplane" ∨ tool = "hlo_proto" := by
    unfold isDirectlyNamedTool at h3
    rw [Bool.and_eq_true, Bool.and_eq_true] at h3
    have hl := h3.1.1
    by_cases hxp : tool = "xplane"
    · exact Or.inl hxp
    · by_cases hhp : tool = "hlo_proto"
      · exact Or.inr hhp
      · exfalso
        rw [show TOOLS.lookup tool =
              (match tool == "xplane" with
               | true => some "xplane.pb"
               | false =>
                 match tool == "hlo_proto" with
                 | true => some "hlo_proto.pb"
                 | false => none) from rfl,
            show (tool == "xplane") = false from beq_eq_false_iff_ne.mpr hxp,
            show (tool == "hlo_proto") = false from beq_eq_false_iff_ne.mpr hhp] at hl
        simp at hl
  have main : ∀ ext : String, ext ∈ catalogExtensions →
      (host ++ "." ++ ext).toList = host.toList ++ '.' :: ext.toList →
      _parse_filename (host ++ "." ++ ext) =
        (some host, _EXTENSION_TO_TOOL.lookup ext) := by
    intro ext hext hdata
    have hre := reFullmatch_make host.toList ext h2 hext
    have hstr : host ++ "." ++ ext = String.mk (host.toList ++ '.' :: ext.toList) :=
      calc host ++ "." ++ ext = String.mk (host ++ "." ++ ext).data := rfl
        _ = String.mk (host.toList ++ '.' :: ext.toList) := by rw [show (host ++ "." ++ ext).data = host.toList ++ '.' :: ext.toList from hdata]
    rw [hstr]
    unfold _parse_filename
    rw [hre]
    rfl
  rcases htool with rfl | rfl
  · refine ⟨host ++ "." ++ "xplane.pb", ?_, ?_⟩
    · simp only [make_filename]
      rw [if_pos h1]
      rfl
    · have hdata : (host ++ "." ++ "xplane.pb").toList =
          host.toList ++ '.' :: "xplane.pb".toList := by
        show (host.toList ++ ['.']) ++ "xplane.pb".toList =
          host.toList ++ '.' :: "xplane.pb".toList
        rw [List.append_assoc]
        rfl
      rw [main "xplane.pb" (by decide) hdata]
      rfl
  · refine ⟨host ++ "." ++ "hlo_proto.pb", ?_, ?_⟩
    · simp only [make_filename]
      rw [if_pos h1]
      rfl
    · have hdata : (host ++ "." ++ "hlo_proto.pb").toList =
          host.toList ++ '.' :: "hlo_proto.pb".toList := by
        show (host.toList ++ ['.']) ++ "hlo_proto.pb".toList =
          host.toList ++ '.' :: "hlo_proto.pb".toList
        rw [List.append_assoc]
        rfl
      rw [main "hlo_proto.pb" (by decide) hdata]
      rfl

/-- C8 witness: the round trip at a concrete host and directly-named tool. -/
theorem C8_witness :
    ∃ f, make_filename "localhost" "xplane" = some f ∧
      _parse_filename f = (some "localhost", some "xplane") :=
  C8_roundtrip_amended "localhost" "xplane" (by decide) (by decide) (by decide)

/-- C4 counterexample: a resolved tool set containing both the streaming and
non-streaming variants of the base tool `foo` keeps both after
post-processing — only the hard-coded `trace_viewer` pair is collapsed — so
the non-streaming variant is not discarded for every base tool. -/
theorem C4_counterexample :
    _get_active_tools (fun _ => Except.ok ["foo", "foo@"]) ["x.xplane.pb"] "/d"
      = Except.ok ["foo", "foo@"] ∧
    _get_tools (fun _ => Except.ok ["foo", "foo@"]) ["x.xplane.pb"] "/d"
      = Except.ok ["foo", "foo@"] :=
  ⟨rfl, rfl⟩

/-- C4 (amended): post-processing a successfully resolved tool set discards
`trace_viewer` exactly when `trace_viewer@` is present (other
streaming/non-streaming pairs are both kept), keeps every other tool, and
orders the result with any `overview_page` moved to the front and all other
tools ascending by name; in particular the resolved set
`{kernel_stats, overview_page, hlo_stats}` becomes
`[overview_page, hlo_stats, kernel_stats]`. -/
theorem C4_active_tools_amended (conv : List String → Except PyExc (List String))
    (filenames : List String) (dir : String) (ts : List String)
    (h : _get_tools conv filenames dir = Except.ok ts) :
    (∃ l, _get_active_tools conv filenames dir = Except.ok l ∧
      ("trace_viewer@" ∈ ts → "trace_viewer" ∉ l) ∧
      (∀ t ∈ ts, (t = "trace_viewer" → "trace_viewer@" ∉ ts) → t ∈ l) ∧
      (∀ t ∈ l, t ∈ ts) ∧
      (∃ front rest, l = front ++ rest ∧
        (front = [] ∨ front = ["overview_page"]) ∧
        "overview_page" ∉ rest ∧ List.Sorted strLe rest)) ∧
    _get_active_tools (fun _ => Except.ok ["kernel_stats", "overview_page", "hlo_stats"])
        ["x.xplane.pb"] "/d"
      = Except.ok ["overview_page", "hlo_stats", "kernel_stats"] := by
  constructor
  · have hnd : ts.Nodup := get_tools_ok_nodup conv filenames dir ts h
    have hform : _get_active_tools conv filenames dir =
        Except.ok
          ((if "trace_viewer@" ∈ ts then ts.erase "trace_viewer" else ts).filter
              (fun t => decide (t ∈ opSet)) ++
            pySorted ((if "trace_viewer@" ∈ ts then ts.erase "trace_viewer" else ts).filter
              (fun t => decide (t ∉ opSet)))) := by
      unfold _get_active_tools
      rw [h]
    have hndP : (if "trace_viewer@" ∈ ts then ts.erase "trace_viewer" else ts).Nodup := by
      by_cases htv : "trace_viewer@" ∈ ts
      · rw [if_pos htv]
        exact hnd.erase _
      · rw [if_neg htv]
        exact hnd
    have hsub : ∀ x ∈ (if "trace_viewer@" ∈ ts then ts.erase "trace_viewer" else ts),
        x ∈ ts := by
      intro x hx
      by_cases htv : "trace_viewer@" ∈ ts
      · rw [if_pos htv] at hx
        exact List.erase_subset _ _ hx
      · rw [if_neg htv] at hx
        exact hx
    have hmemP : ∀ x ∈ ts, (x = "trace_viewer" → "trace_viewer@" ∉ ts) →
        x ∈ (if "trace_viewer@" ∈ ts then ts.erase "trace_viewer" else ts) := by
      intro x hx hcond
      by_cases htv : "trace_viewer@" ∈ ts
      · rw [if_pos htv]
        exact (List.mem_erase_of_ne (fun heq => absurd htv (hcond heq))).mpr hx
      · rw [if_neg htv]
        exact hx
    have hmem_l : ∀ x,
        (x ∈ (if "trace_viewer@" ∈ ts then ts.erase "trace_viewer" else ts).filter
            (fun t => decide (t ∈ opSet)) ++
          pySorted ((if "trace_viewer@" ∈ ts then ts.erase "trace_viewer" else ts).filter
            (fun t => decide (t ∉ opSet)))) ↔
        x ∈ (if "trace_viewer@" ∈ ts then ts.erase "trace_viewer" else ts) := by
      intro x
      rw [List.mem_append, mem_pySorted, List.mem_filter, List.mem_filter]
      by_cases hx : x ∈ opSet
      · simp [hx]
      · simp [hx]
    refine ⟨_, hform, ?_, ?_, ?_, ?_⟩
    · intro htv hin
      have := (hmem_l _).mp hin
      rw [if_pos htv] at this
      exact hnd.not_mem_erase this
    · intro t ht hcond
      exact (hmem_l t).mpr (hmemP t ht hcond)
    · intro t ht
      exact hsub t ((hmem_l t).mp ht)
    · refine ⟨_, _, rfl, ?_, ?_, ?_⟩
      · rw [filter_opSet_eq _ hndP]
        by_cases hov : "overview_page" ∈
            (if "trace_viewer@" ∈ ts then ts.erase "trace_viewer" else ts)
        · rw [if_pos hov]
          exact Or.inr rfl
        · rw [if_neg hov]
          exact Or.inl rfl
      · intro hr
        rw [mem_pySorted, List.mem_filter] at hr
        have := of_decide_eq_true hr.2
        exact this (by decide)
      · exact pySorted_sorted _
  · rfl

/-- C4 witness: post-processing applied to a concrete resolved set. -/
theorem C4_witness :
    (∃ l, _get_active_tools (fun _ => Except.ok ["kernel_stats", "overview_page", "hlo_stats"])
        ["x.xplane.pb"] "/d" = Except.ok l ∧
      ("trace_viewer@" ∈ ["kernel_stats", "overview_page", "hlo_stats"] →
        "trace_viewer" ∉ l) ∧
      (∀ t ∈ ["kernel_stats", "overview_page", "hlo_stats"],
        (t = "trace_viewer" → "trace_viewer@" ∉ ["kernel_stats", "overview_page", "hlo_stats"]) →
          t ∈ l) ∧
      (∀ t ∈ l, t ∈ ["kernel_stats", "overview_page", "hlo_stats"]) ∧
      (∃ front rest, l = front ++ rest ∧
        (front = [] ∨ front = ["overview_page"]) ∧
        "overview_page" ∉ rest ∧ List.Sorted strLe rest)) ∧
    _get_active_tools (fun _ => Except.ok ["kernel_stats", "overview_page", "hlo_stats"])
        ["x.xplane.pb"] "/d"
      = Except.ok ["overview_page", "hlo_stats", "kernel_stats"] :=
  C4_active_tools_amended (fun _ => Except.ok ["kernel_stats", "overview_page", "hlo_stats"])
    ["x.xplane.pb"] "/d" ["kernel_stats", "overview_page", "hlo_stats"] rfl

/-- C2: the directory walk yields the root first (even when it has no
children); it is a total function (so a listing failure, modelled by a `none`
listing and treated as zero children, never aborts the walk — a directory
whose listing fails is yielded alone); it yields every directory reachable
through successful listings; and a root that does not exist or is not a
directory yields nothing. -/
theorem C2_find_all_subdirectories (top e : FsEntry) (n : String) :
    (top.isDir = true → (find_all_subdirectories top).head? = some top.name) ∧
    (top.isDir = false → find_all_subdirectories top = []) ∧
    (find_all_subdirectories (FsEntry.dir n none) = [n]) ∧
    (top.isDir = true → Reaches top e → e.name ∈ find_all_subdirectories top) := by
  refine ⟨?_, ?_, ?_, ?_⟩
  · intro h
    unfold find_all_subdirectories
    rw [if_pos h, bfsWalk_cons]
    rfl
  · intro h
    unfold find_all_subdirectories
    rw [if_neg (by simp [h])]
  · unfold find_all_subdirectories
    rw [if_pos (show (FsEntry.dir n none).isDir = true from rfl), bfsWalk_cons,
      show (([] : List FsEntry) ++ (FsEntry.dir n none).dirChildren) = [] from rfl,
      bfsWalk_nil]
    rfl
  · intro h hr
    unfold find_all_subdirectories
    rw [if_pos h]
    exact bfsWalk_complete [top] top e (List.mem_singleton_self _) hr

/-- C2 witness: in the tree `root/{a/{x}, b}`, the walk starts at `root` and
reaches the nested directory `x`; a root whose own listing fails yields just
the root. -/
theorem C2_witness :
    (find_all_subdirectories exRoot).head? = some exRoot.name ∧
    exX.name ∈ find_all_subdirectories exRoot ∧
    find_all_subdirectories (FsEntry.dir "root" none) = ["root"] := by
  have hmem1 : exA ∈ exRoot.dirChildren := by
    rw [show exRoot.dirChildren = [exA] from rfl]
    exact List.mem_singleton_self _
  have hmem2 : exX ∈ exA.dirChildren := by
    rw [show exA.dirChildren = [exX] from rfl]
    exact List.mem_singleton_self _
  have hreach : Reaches exRoot exX :=
    Reaches.head hmem1 (Reaches.head hmem2 (Reaches.refl exX))
  exact ⟨(C2_find_all_subdirectories exRoot exX "root").1 rfl,
    (C2_find_all_subdirectories exRoot exX "root").2.2.2 rfl hreach,
    (C2_find_all_subdirectories exRoot exX "root").2.2.1⟩
